import Mathlib

/-!
Verification development for the py-log-analyzer repository: a coordinator
(`coordinator.py`) that splits a log file into byte-range chunks, dispatches
them round-robin to registered workers, and aggregates per-chunk metrics,
together with a worker (`worker.py`) whose chunk parser classifies log lines
with the regular expression
`(\S+ \S+) (\S+) Request processed in (\d+)ms` via `re.match`.

The embedding below is shallow: Python ints are `Int` (or `Nat` for the
worker's nonnegative counters), Python floats produced by true division are
`Rat`, strings are `String` / `List Char`, dicts that act as records become
structures, the coordinator's worker dict becomes an insertion-ordered
association list, and the unbounded `while` loop of `_split_file` is modelled
with explicit fuel (`none` = the loop has not finished within the given fuel,
so `(∀ fuel, · = none)` expresses divergence).
-/

/-- Python-level errors that the embedded code can raise, plus the two error
names that the specification's error taxonomy (§7) postulates for the
coordinator (`InvalidArgument`, `NoWorkersAvailable`).  The embedded code never
produces the latter two constructors; they exist so that statements taken from
the specification's words can be written down and compared with what the code
actually does. -/
inductive PyError where
  | nameError (missing : String)
  | zeroDivisionError
  | invalidArgument
  | noWorkersAvailable
deriving DecidableEq

/-- One worker's metrics record for a chunk (`worker.py`, lines 86-91): the
dict `{error_rate, avg_response_time, requests_per_second, malformed_lines}`
returned from `process_chunk` and consumed by `aggregate_results`. -/
structure ChunkResult where
  error_rate : ℚ
  avg_response_time : ℚ
  requests_per_second : ℤ
  malformed_lines : ℤ
deriving DecidableEq

/-- The coordinator's aggregate dict (`coordinator.py`, lines 97-102), in the
key order of the source literal. -/
structure AggregateResult where
  avg_response_time : ℚ
  requests_per_second : ℤ
  error_rate : ℚ
  malformed_lines : ℤ
deriving DecidableEq

/-- A registry entry `{"worker_url": ..., "status": ...}`
(`coordinator.py`, line 46).  The status is the literal Python string. -/
structure WorkerEntry where
  worker_url : String
  status : String
deriving DecidableEq

/-! ## Worker chunk parser (`worker.py`, `process_chunk`, lines 62-92)

The line classifier is `re.match(r"(\S+ \S+) (\S+) Request processed in
(\d+)ms", line)`.  `re.match` anchors at the start of the string only.  In
this pattern every `\S+` is followed by a literal space and the `\d+` is
followed by the literal `m`, characters which `\S`/`\d` can also never match
less of, so backtracking is vacuous and the regex denotes the deterministic
scan implemented below: three maximal nonempty runs of non-space characters
separated by single spaces, the literal text ` Request processed in `
(note the spec-visible space handling), a maximal nonempty run of decimal
digits, the literal `ms`, and then an arbitrary remainder.  `\s` and `\d` are
modelled on their ASCII fragments. -/

/-- The ASCII characters matched by Python's `\s` (so rejected by `\S`). -/
def isSpaceChar (c : Char) : Bool :=
  c = ' ' || c = '\t' || c = '\n' || c = '\r' || c = '\x0b' || c = '\x0c'

/-- Value of a run of decimal digits, as computed by Python's `int`. -/
def digitsToNat (ds : List Char) : Nat :=
  ds.foldl (fun acc c => 10 * acc + (c.toNat - 48)) 0

/-- One `\S+` of the pattern followed by a context the regex can only match
at a space: the maximal nonempty run of non-space characters. -/
def pTok (cs : List Char) : Option (List Char × List Char) :=
  let t := cs.takeWhile (fun c => !isSpaceChar c)
  if t = [] then none
  else some (t, cs.dropWhile (fun c => !isSpaceChar c))

/-- A literal piece of the pattern. -/
def pLit : List Char → List Char → Option (List Char)
  | [], cs => some cs
  | _ :: _, [] => none
  | a :: as, c :: cs => if c = a then pLit as cs else none

/-- The `(\d+)` group followed by the literal `m`: the maximal nonempty run
of digits, returned as the integer Python's `int()` computes from it. -/
def pInt (cs : List Char) : Option (Nat × List Char) :=
  let ds := cs.takeWhile (fun c => c.isDigit)
  if ds = [] then none
  else some (digitsToNat ds, cs.dropWhile (fun c => c.isDigit))

/-- The fixed middle text of the pattern, including the space that separates
it from the third `\S+` group and the space before the digits. -/
def requestPattern : List Char := (" Request processed in ").toList

/-- The worker's line classifier: `some t` when
`re.match(r"(\S+ \S+) (\S+) Request processed in (\d+)ms", line)` succeeds
with `t = int(match.group(3))`, `none` when the line is counted malformed. -/
def matchLogLine (cs : List Char) : Option Nat :=
  (pTok cs).bind fun p1 =>
  (pLit [' '] p1.2).bind fun r2 =>
  (pTok r2).bind fun p3 =>
  (pLit [' '] p3.2).bind fun r4 =>
  (pTok r4).bind fun p5 =>
  (pLit requestPattern p5.2).bind fun r6 =>
  (pInt r6).bind fun p7 =>
  (pLit ['m', 's'] p7.2).map fun _ => p7.1

/-- Loop body of `process_chunk` (`worker.py`, lines 75-82) acting on the
accumulator `(total_time, total_requests, malformed_lines)`. -/
def chunkStep (acc : Nat × Nat × Nat) (line : List Char) : Nat × Nat × Nat :=
  match matchLogLine line with
  | some t => (acc.1 + t, acc.2.1 + 1, acc.2.2)
  | none => (acc.1, acc.2.1, acc.2.2 + 1)

/-- The per-line loop of `process_chunk` over the lines read from the chunk,
starting from the zero-initialised counters of lines 65-67. -/
def processChunkLoop (lines : List (List Char)) : Nat × Nat × Nat :=
  lines.foldl chunkStep (0, 0, 0)

/-- `process_chunk` (`worker.py`, lines 62-92) as a function of the list of
lines the file read yields for the requested byte range: the metrics record
built on lines 84-91, with `avg_response_time = total_time / total_requests`
when `total_requests > 0` and `0` otherwise, and `error_rate` fixed at `0.0`. -/
def process_chunk (lines : List (List Char)) : ChunkResult :=
  let t := processChunkLoop lines
  { error_rate := 0
    avg_response_time := if 0 < t.2.1 then (t.1 : ℚ) / (t.2.1 : ℚ) else 0
    requests_per_second := (t.2.1 : ℤ)
    malformed_lines := (t.2.2 : ℤ) }

/-! ## Coordinator (`coordinator.py`) -/

/-- The names bound at module level in `coordinator.py`: its imports
(lines 1-6) and the class it defines.  `os` is not among them, and `os` is
not a Python builtin, so evaluating the expression `os.path.getsize(...)` on
line 67 raises `NameError`. -/
def coordinatorModuleNames : List String :=
  ["argparse", "asyncio", "aiohttp", "json", "List", "web", "Coordinator"]

/-- The `while start < file_size` loop of `_split_file` (`coordinator.py`,
lines 86-93) with explicit fuel: `some chunks` means the loop exits with that
chunk list, `none` means it has not exited within `fuel` iterations, so
`(∀ fuel, · = none)` says the loop never terminates.  Each appended chunk is
the pair `(start, chunk_size)`. -/
def splitFileFuel : Nat → ℤ → ℤ → ℤ → Option (List (ℤ × ℤ))
  | 0, _, _, _ => none
  | fuel + 1, start, fileSize, chunkSize =>
    if start < fileSize then
      (splitFileFuel fuel (start + chunkSize) fileSize chunkSize).map
        (fun rest => (start, chunkSize) :: rest)
    else some []

/-- Line 72 of `coordinator.py`:
`list(self.workers.keys())[i % len(self.workers)]`.  When the registry is
empty, Python raises `ZeroDivisionError` from `i % 0`; otherwise
`i % len < len`, so the index is always in bounds and the `getD` default is
never consulted. -/
def pyRoundRobin (workers : List String) (i : Nat) : Except PyError String :=
  if workers.length = 0 then Except.error PyError.zeroDivisionError
  else Except.ok (workers.getD (i % workers.length) "")

/-- The dispatch loop of `handle_process_chunk` (`coordinator.py`,
lines 70-81), parameterised by `respond`, the composite of the worker-URL
lookup, the HTTP round trip and the assigned worker's computation for a chunk
`(start, size)`.  Results are appended in chunk order. -/
def dispatch (workers : List String) (respond : String → ℤ × ℤ → ChunkResult) :
    Nat → List (ℤ × ℤ) → Except PyError (List ChunkResult)
  | _, [] => Except.ok []
  | i, c :: rest =>
    match pyRoundRobin workers i with
    | Except.error e => Except.error e
    | Except.ok wid =>
      match dispatch workers respond (i + 1) rest with
      | Except.error e => Except.error e
      | Except.ok rs => Except.ok (respond wid c :: rs)

/-- Loop body of `aggregate_results` (`coordinator.py`, lines 109-112) on the
accumulator `(total_requests, total_time, total_malformed)`. -/
def aggStep (acc : ℤ × ℚ × ℤ) (r : ChunkResult) : ℤ × ℚ × ℤ :=
  (acc.1 + r.requests_per_second,
   acc.2.1 + r.avg_response_time * (r.requests_per_second : ℚ),
   acc.2.2 + r.malformed_lines)

/-- `aggregate_results` (`coordinator.py`, lines 95-117): totals accumulated
over the results, then `avg_response_time = total_time / total_requests` when
`total_requests > 0` and `0` otherwise; `error_rate` keeps its initial `0.0`. -/
def aggregate_results (results : List ChunkResult) : AggregateResult :=
  let t := results.foldl aggStep (0, 0, 0)
  { avg_response_time := if 0 < t.1 then t.2.1 / (t.1 : ℚ) else 0
    requests_per_second := t.1
    error_rate := 0
    malformed_lines := t.2.2 }

/-- `handle_worker_health_check` (`coordinator.py`, lines 50-58): if the id is
a key of the registry, set that entry's `"status"` to `"active"`; otherwise do
nothing.  The registry is the insertion-ordered dict `self.workers`, whose
keys are unique; an in-place value update keeps the key order. -/
def handle_worker_health_check (workers : List (String × WorkerEntry))
    (worker_id : String) : List (String × WorkerEntry) :=
  if workers.any (fun p => p.1 == worker_id) then
    workers.map (fun p =>
      if p.1 == worker_id then (p.1, { p.2 with status := "active" }) else p)
  else workers

/-- The body of a `/process_chunk` request (`coordinator.py`, lines 62-64). -/
structure ProcessChunkRequest where
  filepath : String
  chunk_size : ℤ

/-- `handle_process_chunk` (`coordinator.py`, lines 60-84), parameterised by
the environment the handler would consult after its first step: `getsize` for
`os.path.getsize`, the registry, and `respond` for the worker calls.  Python
resolves the name `os` before anything on line 67 can run, so the handler is
modelled as: look up `os` among the module's names and raise `NameError` on
failure; only then split the file (fuelled loop; outer `none` = the split loop
diverges), dispatch, and aggregate. -/
def handle_process_chunk (getsize : String → ℤ)
    (reg : List (String × WorkerEntry)) (respond : String → ℤ × ℤ → ChunkResult)
    (body : ProcessChunkRequest) (fuel : Nat) :
    Option (Except PyError AggregateResult) :=
  if "os" ∈ coordinatorModuleNames then
    match splitFileFuel fuel 0 (getsize body.filepath) body.chunk_size with
    | none => none
    | some chunks =>
      some (match dispatch (reg.map Prod.fst) respond 0 chunks with
        | Except.error e => Except.error e
        | Except.ok results => Except.ok (aggregate_results results))
  else some (Except.error (PyError.nameError "os"))

/-! ## Shape predicates for the worker parser

`MatchesShape` is the exact language of the code's regex (three non-space
tokens); `ClaimShape` renders the specification's words — two non-space
tokens before the fixed text and nothing after `ms` — for comparison. -/

/-- A nonempty run of characters that `\S` accepts. -/
def NonSpaceTok (t : List Char) : Prop :=
  t ≠ [] ∧ ∀ c ∈ t, isSpaceChar c = false

/-- A nonempty run of decimal digits. -/
def DigitRun (d : List Char) : Prop :=
  d ≠ [] ∧ ∀ c ∈ d, c.isDigit = true

/-- The language actually accepted by the worker's regex: three non-space
tokens separated by single spaces, the fixed text, a digit run, `ms`, and an
arbitrary remainder, with `n` the value of the digit run. -/
def MatchesShape (cs : List Char) (n : Nat) : Prop :=
  ∃ t1 t2 t3 ds rest,
    NonSpaceTok t1 ∧ NonSpaceTok t2 ∧ NonSpaceTok t3 ∧ DigitRun ds ∧
    cs = t1 ++ ([' '] ++ (t2 ++ ([' '] ++ (t3 ++ (requestPattern ++
      (ds ++ (['m', 's'] ++ rest))))))) ∧
    n = digitsToNat ds

/-- The shape the claim asserts: exactly two non-space tokens before
` Request processed in <integer>ms`, with nothing after `ms`. -/
def ClaimShape (cs : List Char) : Prop :=
  ∃ t1 t2 ds,
    NonSpaceTok t1 ∧ NonSpaceTok t2 ∧ DigitRun ds ∧
    cs = t1 ++ ([' '] ++ (t2 ++ (requestPattern ++ (ds ++ ['m', 's']))))

/-! ## Helper lemmas about maximal runs -/

lemma takeWhile_dropWhile_of_append (p : Char → Bool) :
    ∀ t r : List Char, (∀ c ∈ t, p c = true) →
      (∀ c cr, r = c :: cr → p c = false) →
      (t ++ r).takeWhile p = t ∧ (t ++ r).dropWhile p = r := by
  intro t
  induction t with
  | nil =>
    intro r _ hr
    cases r with
    | nil => exact ⟨rfl, rfl⟩
    | cons c cr =>
      have hc : p c = false := hr c cr rfl
      simp [List.takeWhile_cons, List.dropWhile_cons, hc]
  | cons a t ih =>
    intro r ht hr
    have ha : p a = true := ht a (by simp)
    have h := ih r (fun c hc => ht c (by simp [hc])) hr
    simp [List.takeWhile_cons, List.dropWhile_cons, ha, h.1, h.2]

lemma mem_takeWhile_pred (p : Char → Bool) :
    ∀ (l : List Char) (c : Char), c ∈ l.takeWhile p → p c = true := by
  intro l
  induction l with
  | nil => intro c hc; simp [List.takeWhile] at hc
  | cons a l ih =>
    intro c hc
    rw [List.takeWhile_cons] at hc
    by_cases ha : p a = true
    · simp [ha] at hc
      rcases hc with hc | hc
      · simpa [hc] using ha
      · exact ih c hc
    · simp [Bool.eq_false_iff.mpr ha] at hc

lemma dropWhile_head_pred (p : Char → Bool) :
    ∀ (l : List Char) (c : Char) (cr : List Char),
      l.dropWhile p = c :: cr → p c = false := by
  intro l
  induction l with
  | nil => intro c cr h; simp [List.dropWhile] at h
  | cons a l ih =>
    intro c cr h
    rw [List.dropWhile_cons] at h
    by_cases ha : p a = true
    · rw [if_pos ha] at h
      exact ih c cr h
    · rw [if_neg ha] at h
      cases h
      exact Bool.eq_false_iff.mpr ha

/-! ## Characterisations of the three scanners -/

lemma pTok_eq_some (cs t r : List Char) :
    pTok cs = some (t, r) ↔
      (t ≠ [] ∧ (∀ c ∈ t, isSpaceChar c = false) ∧ cs = t ++ r ∧
       ∀ c cr, r = c :: cr → isSpaceChar c = true) := by
  constructor
  · intro h
    unfold pTok at h
    by_cases h0 : cs.takeWhile (fun c => !isSpaceChar c) = []
    · simp [h0] at h
    · rw [if_neg h0] at h
      have ht : t = cs.takeWhile (fun c => !isSpaceChar c) := by
        cases h; rfl
      have hd : r = cs.dropWhile (fun c => !isSpaceChar c) := by
        cases h; rfl
      refine ⟨by rw [ht]; exact h0, ?_, ?_, ?_⟩
      · intro c hc
        have := mem_takeWhile_pred (fun c => !isSpaceChar c) cs c (ht ▸ hc)
        simpa using this
      · rw [ht, hd, List.takeWhile_append_dropWhile]
      · intro c cr hr
        have := dropWhile_head_pred (fun c => !isSpaceChar c) cs c cr
          (by rw [← hd, hr])
        simpa using this
  · rintro ⟨hne, hmem, hcs, hr⟩
    have h := takeWhile_dropWhile_of_append (fun c => !isSpaceChar c) t r
      (fun c hc => by simp [hmem c hc])
      (fun c cr hcr => by simp [hr c cr hcr])
    unfold pTok
    rw [hcs, h.1, h.2, if_neg hne]

lemma pInt_eq_some (cs : List Char) (n : Nat) (r : List Char) :
    pInt cs = some (n, r) ↔
      ∃ ds, ds ≠ [] ∧ (∀ c ∈ ds, c.isDigit = true) ∧ cs = ds ++ r ∧
        (∀ c cr, r = c :: cr → c.isDigit = false) ∧ n = digitsToNat ds := by
  constructor
  · intro h
    unfold pInt at h
    by_cases h0 : cs.takeWhile (fun c => c.isDigit) = []
    · simp [h0] at h
    · rw [if_neg h0] at h
      refine ⟨cs.takeWhile (fun c => c.isDigit), h0, ?_, ?_, ?_, ?_⟩
      · intro c hc
        exact mem_takeWhile_pred (fun c => c.isDigit) cs c hc
      · have hd : r = cs.dropWhile (fun c => c.isDigit) := by
          cases h; rfl
        rw [hd, List.takeWhile_append_dropWhile]
      · intro c cr hr
        have hd : r = cs.dropWhile (fun c => c.isDigit) := by
          cases h; rfl
        exact dropWhile_head_pred (fun c => c.isDigit) cs c cr (by rw [← hd, hr])
      · cases h; rfl
  · rintro ⟨ds, hne, hmem, hcs, hr, hn⟩
    have h := takeWhile_dropWhile_of_append (fun c => c.isDigit) ds r hmem hr
    unfold pInt
    rw [hcs, h.1, h.2, if_neg hne, hn]

lemma pLit_eq_some : ∀ lit cs r : List Char, pLit lit cs = some r ↔ cs = lit ++ r := by
  intro lit
  induction lit with
  | nil => intro cs r; simp [pLit]
  | cons a as ih =>
    intro cs r
    cases cs with
    | nil => simp [pLit]
    | cons c cs2 =>
      by_cases hca : c = a
      · subst hca
        simp [pLit, ih]
      · simp [pLit, hca, List.cons.injEq]


/-- The worker's classifier accepts exactly the three-token prefix language
of its regex. -/
lemma matchLogLine_eq_some_iff (cs : List Char) (n : Nat) :
    matchLogLine cs = some n ↔ MatchesShape cs n := by
  constructor
  · intro h
    unfold matchLogLine at h
    simp only [Option.bind_eq_some, Option.map_eq_some'] at h
    obtain ⟨⟨t1, r1⟩, h1, r2, h2, ⟨t2, r3⟩, h3, r4, h4, ⟨t3, r5⟩, h5, r6, h6,
      ⟨nn, r7⟩, h7, rest, h8, hn⟩ := h
    obtain ⟨hne1, hmem1, hcs1, -⟩ := (pTok_eq_some cs t1 r1).mp h1
    have hr1 : r1 = [' '] ++ r2 := (pLit_eq_some _ _ _).mp h2
    obtain ⟨hne2, hmem2, hcs2, -⟩ := (pTok_eq_some r2 t2 r3).mp h3
    have hr3 : r3 = [' '] ++ r4 := (pLit_eq_some _ _ _).mp h4
    obtain ⟨hne3, hmem3, hcs3, -⟩ := (pTok_eq_some r4 t3 r5).mp h5
    have hr5 : r5 = requestPattern ++ r6 := (pLit_eq_some _ _ _).mp h6
    obtain ⟨ds, hdne, hdmem, hr6, -, hnn⟩ := (pInt_eq_some r6 nn r7).mp h7
    have hr7 : r7 = ['m', 's'] ++ rest := (pLit_eq_some _ _ _).mp h8
    refine ⟨t1, t2, t3, ds, rest, ⟨hne1, hmem1⟩, ⟨hne2, hmem2⟩,
      ⟨hne3, hmem3⟩, ⟨hdne, hdmem⟩, ?_, ?_⟩
    · rw [hcs1, hr1, hcs2, hr3, hcs3, hr5, hr6, hr7]
    · rw [← hn, hnn]
  · rintro ⟨t1, t2, t3, ds, rest, ht1, ht2, ht3, hds, hcs, hn⟩
    have e8 : pLit ['m', 's'] (['m', 's'] ++ rest) = some rest :=
      (pLit_eq_some _ _ _).mpr rfl
    have e7 : pInt (ds ++ (['m', 's'] ++ rest)) =
        some (digitsToNat ds, ['m', 's'] ++ rest) := by
      refine (pInt_eq_some _ _ _).mpr ⟨ds, hds.1, hds.2, rfl, ?_, rfl⟩
      intro c cr h
      rw [show (['m', 's'] ++ rest : List Char) = 'm' :: ('s' :: rest)
        from rfl] at h
      cases h
      decide
    have e6 : pLit requestPattern
        (requestPattern ++ (ds ++ (['m', 's'] ++ rest))) =
        some (ds ++ (['m', 's'] ++ rest)) :=
      (pLit_eq_some _ _ _).mpr rfl
    have e5 : pTok (t3 ++ (requestPattern ++ (ds ++ (['m', 's'] ++ rest)))) =
        some (t3, requestPattern ++ (ds ++ (['m', 's'] ++ rest))) := by
      refine (pTok_eq_some _ _ _).mpr ⟨ht3.1, ht3.2, rfl, ?_⟩
      intro c cr h
      rw [show (requestPattern ++ (ds ++ (['m', 's'] ++ rest)) : List Char) =
        ' ' :: ("Request processed in ".toList ++ (ds ++ (['m', 's'] ++ rest)))
        from rfl] at h
      cases h
      decide
    have e4 : pLit [' ']
        ([' '] ++ (t3 ++ (requestPattern ++ (ds ++ (['m', 's'] ++ rest))))) =
        some (t3 ++ (requestPattern ++ (ds ++ (['m', 's'] ++ rest)))) :=
      (pLit_eq_some _ _ _).mpr rfl
    have e3 : pTok (t2 ++ ([' '] ++ (t3 ++ (requestPattern ++
        (ds ++ (['m', 's'] ++ rest)))))) =
        some (t2, [' '] ++ (t3 ++ (requestPattern ++
          (ds ++ (['m', 's'] ++ rest))))) := by
      refine (pTok_eq_some _ _ _).mpr ⟨ht2.1, ht2.2, rfl, ?_⟩
      intro c cr h
      rw [show ([' '] ++ (t3 ++ (requestPattern ++ (ds ++ (['m', 's'] ++
        rest)))) : List Char) =
        ' ' :: (t3 ++ (requestPattern ++ (ds ++ (['m', 's'] ++ rest))))
        from rfl] at h
      cases h
      decide
    have e2 : pLit [' ']
        ([' '] ++ (t2 ++ ([' '] ++ (t3 ++ (requestPattern ++
          (ds ++ (['m', 's'] ++ rest))))))) =
        some (t2 ++ ([' '] ++ (t3 ++ (requestPattern ++
          (ds ++ (['m', 's'] ++ rest)))))) :=
      (pLit_eq_some _ _ _).mpr rfl
    have e1 : pTok cs = some (t1,
        [' '] ++ (t2 ++ ([' '] ++ (t3 ++ (requestPattern ++
          (ds ++ (['m', 's'] ++ rest))))))) := by
      refine (pTok_eq_some _ _ _).mpr ⟨ht1.1, ht1.2, hcs, ?_⟩
      intro c cr h
      rw [show ([' '] ++ (t2 ++ ([' '] ++ (t3 ++ (requestPattern ++
        (ds ++ (['m', 's'] ++ rest)))))) : List Char) =
        ' ' :: (t2 ++ ([' '] ++ (t3 ++ (requestPattern ++
          (ds ++ (['m', 's'] ++ rest)))))) from rfl] at h
      cases h
      decide
    unfold matchLogLine
    rw [e1, Option.some_bind]
    simp only
    rw [e2, Option.some_bind, e3, Option.some_bind]
    simp only
    rw [e4, Option.some_bind, e5, Option.some_bind]
    simp only
    rw [e6, Option.some_bind, e7, Option.some_bind]
    simp only
    rw [e8, Option.map_some', hn]

/-- The worker's counter loop computes the match count, the time sum over
matched lines, and the non-match count, whatever the accumulator. -/
lemma processChunkLoop_foldl :
    ∀ (lines : List (List Char)) (acc : Nat × Nat × Nat),
      lines.foldl chunkStep acc =
        (acc.1 + (lines.map (fun l => (matchLogLine l).getD 0)).sum,
         acc.2.1 + lines.countP (fun l => (matchLogLine l).isSome),
         acc.2.2 + lines.countP (fun l => (matchLogLine l).isNone)) := by
  intro lines
  induction lines with
  | nil => intro acc; simp
  | cons l ls ih =>
    intro acc
    rw [List.foldl_cons, ih]
    cases h : matchLogLine l with
    | none =>
      simp [chunkStep, h, List.countP_cons, Prod.ext_iff]
      omega
    | some t =>
      simp [chunkStep, h, List.countP_cons, Prod.ext_iff]
      omega

/-- Claim C2 (amended).  A line is classified as a matched request exactly
when it begins with three non-space tokens separated by single spaces
followed by ` Request processed in <integer>ms`, arbitrary trailing content
after `ms` included (the regex has three `\S+` groups — the timestamp
occupies two tokens — and `re.match` only anchors at the start).  Each
matched line adds exactly 1 to the request counter and its parsed integer to
the time sum; each other line adds exactly 1 to the malformed-line counter
and nothing to the time sum. -/
theorem matchLogLine_shape_and_counters :
    (∀ (cs : List Char) (n : Nat),
      matchLogLine cs = some n ↔ MatchesShape cs n) ∧
    (∀ lines : List (List Char),
      processChunkLoop lines =
        ((lines.map (fun l => (matchLogLine l).getD 0)).sum,
         lines.countP (fun l => (matchLogLine l).isSome),
         lines.countP (fun l => (matchLogLine l).isNone)) ∧
      (process_chunk lines).requests_per_second =
        (lines.countP (fun l => (matchLogLine l).isSome) : ℤ) ∧
      (process_chunk lines).malformed_lines =
        (lines.countP (fun l => (matchLogLine l).isNone) : ℤ)) := by
  refine ⟨matchLogLine_eq_some_iff, fun lines => ?_⟩
  have h : processChunkLoop lines =
      ((lines.map (fun l => (matchLogLine l).getD 0)).sum,
       lines.countP (fun l => (matchLogLine l).isSome),
       lines.countP (fun l => (matchLogLine l).isNone)) := by
    unfold processChunkLoop
    rw [processChunkLoop_foldl]
    simp
  refine ⟨h, ?_, ?_⟩
  · unfold process_chunk
    rw [h]
  · unfold process_chunk
    rw [h]

/-- Claim C2, counterexample.  The line `a b Request processed in 5ms` has
exactly the shape the claim describes (two non-space tokens before the fixed
text, nothing after `ms`) yet the worker counts it malformed, because the
regex demands a third token; conversely `a b c Request processed in 7ms junk`
falls outside the claimed shape yet is counted as a matched request with
time 7, because `re.match` ignores trailing content. -/
theorem two_token_line_is_malformed :
    (ClaimShape ("a b Request processed in 5ms").toList ∧
     matchLogLine ("a b Request processed in 5ms").toList = none) ∧
    matchLogLine ("a b c Request processed in 7ms junk").toList = some 7 := by
  refine ⟨⟨⟨['a'], ['b'], ['5'], ⟨by decide, by decide⟩, ⟨by decide, by decide⟩,
    ⟨by decide, by decide⟩, by decide⟩, by decide⟩, by decide⟩

/-! ## Properties of the `_split_file` loop -/

/-- Whenever the `_split_file` loop exits, the chunk list it returns is fully
determined: the `i`-th chunk is `(start + i * chunk_size, chunk_size)`, every
recorded offset was below `file_size` when appended, the loop stopped only
once the running offset reached `file_size`, and the declared lengths sum to
`length * chunk_size`. -/
lemma splitFileFuel_sound :
    ∀ (fuel : Nat) (start fileSize chunkSize : ℤ) (L : List (ℤ × ℤ)),
      splitFileFuel fuel start fileSize chunkSize = some L →
      (∀ i, i < L.length →
        L.getD i (0, 0) = (start + (i : ℤ) * chunkSize, chunkSize)) ∧
      (∀ i, i < L.length → start + (i : ℤ) * chunkSize < fileSize) ∧
      fileSize ≤ start + (L.length : ℤ) * chunkSize ∧
      (L.map Prod.snd).sum = (L.length : ℤ) * chunkSize := by
  intro fuel
  induction fuel with
  | zero =>
    intro start fileSize chunkSize L h
    simp [splitFileFuel] at h
  | succ fuel ih =>
    intro start fileSize chunkSize L h
    rw [splitFileFuel] at h
    by_cases hlt : start < fileSize
    · rw [if_pos hlt] at h
      cases hrec : splitFileFuel fuel (start + chunkSize) fileSize chunkSize with
      | none => rw [hrec] at h; simp at h
      | some L0 =>
        rw [hrec] at h
        simp only [Option.map_some', Option.some.injEq] at h
        subst h
        obtain ⟨ih1, ih2, ih3, ih4⟩ := ih (start + chunkSize) fileSize chunkSize L0 hrec
        refine ⟨?_, ?_, ?_, ?_⟩
        · intro i hi
          cases i with
          | zero => simp
          | succ i =>
            rw [List.getD_cons_succ, ih1 i (by simpa using hi)]
            refine Prod.ext ?_ rfl
            push_cast
            ring
        · intro i hi
          cases i with
          | zero => simpa using hlt
          | succ i =>
            have := ih2 i (by simpa using hi)
            push_cast at this ⊢
            linarith
        · have := ih3
          simp only [List.length_cons]
          push_cast
          push_cast at this
          linarith
        · simp only [List.map_cons, List.sum_cons, ih4, List.length_cons]
          push_cast
          ring
    · rw [if_neg hlt] at h
      simp only [Option.some.injEq] at h
      subst h
      refine ⟨?_, ?_, ?_, ?_⟩
      · intro i hi; simp at hi
      · intro i hi; simp at hi
      · simp only [List.length_nil]
        push_cast
        linarith [not_lt.mp hlt]
      · simp

/-- With a positive chunk size the loop exits once the fuel exceeds the
remaining distance, since every iteration advances the offset by at least 1. -/
lemma splitFileFuel_total :
    ∀ (fuel : Nat) (start fileSize chunkSize : ℤ),
      1 ≤ chunkSize → (fileSize - start).toNat < fuel →
      ∃ L, splitFileFuel fuel start fileSize chunkSize = some L := by
  intro fuel
  induction fuel with
  | zero =>
    intro start fileSize chunkSize _ hfuel
    omega
  | succ fuel ih =>
    intro start fileSize chunkSize hc hfuel
    by_cases hlt : start < fileSize
    · obtain ⟨L0, h0⟩ := ih (start + chunkSize) fileSize chunkSize hc (by omega)
      exact ⟨(start, chunkSize) :: L0, by rw [splitFileFuel, if_pos hlt, h0]; rfl⟩
    · exact ⟨[], by rw [splitFileFuel, if_neg hlt]⟩

/-- With a nonpositive chunk size and the offset still short of `file_size`,
the loop condition stays true forever: no amount of fuel makes it exit. -/
lemma splitFileFuel_diverges :
    ∀ (fuel : Nat) (start fileSize chunkSize : ℤ),
      chunkSize ≤ 0 → start < fileSize →
      splitFileFuel fuel start fileSize chunkSize = none := by
  intro fuel
  induction fuel with
  | zero => intro start fileSize chunkSize _ _; rfl
  | succ fuel ih =>
    intro start fileSize chunkSize hc hlt
    rw [splitFileFuel, if_pos hlt, ih (start + chunkSize) fileSize chunkSize hc (by omega)]
    rfl

/-- Claim C5.  For `file_size ≥ 0` and `chunk_size > 0` the plan the loop
returns starts at offset 0, steps by exactly `chunk_size`, has
`i`-th chunk `(i * chunk_size, chunk_size)`, declares a total length of at
least `file_size`, and covers every byte position in `[0, file_size)`
exactly once (no gaps, no overlaps; only the last chunk may extend past
end-of-file). -/
theorem split_file_plan_properties (fileSize chunkSize : ℤ)
    (h0 : 0 ≤ fileSize) (hc : 0 < chunkSize) :
    ∃ L, splitFileFuel (fileSize.toNat + 1) 0 fileSize chunkSize = some L ∧
      (0 < fileSize → L.getD 0 (0, 0) = (0, chunkSize)) ∧
      (∀ i, i + 1 < L.length →
        (L.getD (i + 1) (0, 0)).1 = (L.getD i (0, 0)).1 + chunkSize) ∧
      (∀ i, i < L.length →
        L.getD i (0, 0) = ((i : ℤ) * chunkSize, chunkSize)) ∧
      fileSize ≤ (L.map Prod.snd).sum ∧
      (∀ x : ℤ, 0 ≤ x → x < fileSize →
        ∃! i : ℕ, i < L.length ∧ (L.getD i (0, 0)).1 ≤ x ∧
          x < (L.getD i (0, 0)).1 + (L.getD i (0, 0)).2) := by
  obtain ⟨L, hL⟩ :=
    splitFileFuel_total (fileSize.toNat + 1) 0 fileSize chunkSize hc (by omega)
  obtain ⟨h1, h2, h3, h4⟩ := splitFileFuel_sound _ 0 fileSize chunkSize L hL
  have hform : ∀ i, i < L.length →
      L.getD i (0, 0) = ((i : ℤ) * chunkSize, chunkSize) := by
    intro i hi
    have := h1 i hi
    simpa using this
  have hcover : fileSize ≤ (L.length : ℤ) * chunkSize := by
    have := h3
    linarith
  refine ⟨L, hL, ?_, ?_, hform, ?_, ?_⟩
  · intro hfs
    have hlen : 0 < L.length := by
      rcases Nat.eq_zero_or_pos L.length with hz | hp
      · exfalso
        rw [hz] at hcover
        push_cast at hcover
        linarith
      · exact hp
    have := hform 0 hlen
    simpa using this
  · intro i hi
    rw [hform (i + 1) hi, hform i (by omega)]
    push_cast
    ring
  · rw [h4]
    exact hcover
  · intro x hx0 hxfs
    have hcne : chunkSize ≠ 0 := ne_of_gt hc
    have hq0 : 0 ≤ x / chunkSize := Int.ediv_nonneg hx0 (le_of_lt hc)
    have hqlt : x / chunkSize < (L.length : ℤ) := by
      rw [Int.ediv_lt_iff_lt_mul hc]
      linarith
    have he := Int.ediv_add_emod x chunkSize
    have hm0 := Int.emod_nonneg x hcne
    have hmlt := Int.emod_lt_of_pos x hc
    have hlow : chunkSize * (x / chunkSize) ≤ x := by linarith
    have hhigh : x < chunkSize * (x / chunkSize) + chunkSize := by linarith
    refine ⟨(x / chunkSize).toNat, ⟨by omega, ?_, ?_⟩, ?_⟩
    · rw [hform (x / chunkSize).toNat (by omega)]
      have hcast : (((x / chunkSize).toNat : ℤ)) = x / chunkSize :=
        Int.toNat_of_nonneg hq0
      simp only
      rw [hcast]
      linarith [hlow, mul_comm chunkSize (x / chunkSize)]
    · rw [hform (x / chunkSize).toNat (by omega)]
      have hcast : (((x / chunkSize).toNat : ℤ)) = x / chunkSize :=
        Int.toNat_of_nonneg hq0
      simp only
      rw [hcast]
      linarith [hhigh, mul_comm chunkSize (x / chunkSize)]
    · rintro j ⟨hjlen, hjlo, hjhi⟩
      rw [hform j hjlen] at hjlo hjhi
      simp only at hjlo hjhi
      have hle : (j : ℤ) ≤ x / chunkSize := by
        rw [Int.le_ediv_iff_mul_le hc]
        linarith
      have hgt : x / chunkSize < (j : ℤ) + 1 := by
        rw [Int.ediv_lt_iff_lt_mul hc]
        have hexp : ((j : ℤ) + 1) * chunkSize = (j : ℤ) * chunkSize + chunkSize := by
          ring
        rw [hexp]
        linarith
      omega

/-- Claim C5, witness: the plan for a 5-byte file with chunk size 2. -/
theorem split_file_plan_properties_witness :
    ∃ L, splitFileFuel ((5 : ℤ).toNat + 1) 0 5 2 = some L ∧
      ((0 : ℤ) < 5 → L.getD 0 (0, 0) = (0, 2)) ∧
      (∀ i, i + 1 < L.length →
        (L.getD (i + 1) (0, 0)).1 = (L.getD i (0, 0)).1 + 2) ∧
      (∀ i, i < L.length → L.getD i (0, 0) = ((i : ℤ) * 2, 2)) ∧
      (5 : ℤ) ≤ (L.map Prod.snd).sum ∧
      (∀ x : ℤ, 0 ≤ x → x < 5 →
        ∃! i : ℕ, i < L.length ∧ (L.getD i (0, 0)).1 ≤ x ∧
          x < (L.getD i (0, 0)).1 + (L.getD i (0, 0)).2) :=
  split_file_plan_properties 5 2 (by decide) (by decide)

/-- Claim C10.  With `file_size ≥ 0` and `chunk_size ≥ 1` the `_split_file`
loop terminates (fuel `file_size + 1` always suffices, because
`file_size - start` strictly decreases); with `chunk_size ≤ 0` and
`file_size > 0` it never terminates. -/
theorem split_file_termination_dichotomy (fileSize chunkSize : ℤ) :
    (0 ≤ fileSize → 1 ≤ chunkSize →
      ∃ L, splitFileFuel (fileSize.toNat + 1) 0 fileSize chunkSize = some L) ∧
    (chunkSize ≤ 0 → 0 < fileSize →
      ∀ fuel, splitFileFuel fuel 0 fileSize chunkSize = none) := by
  constructor
  · intro _ hc
    exact splitFileFuel_total _ 0 fileSize chunkSize hc (by omega)
  · intro hc h0 fuel
    exact splitFileFuel_diverges fuel 0 fileSize chunkSize hc h0

/-- Claim C10, witness: a 3-byte file with chunk size 2 terminates; a 4-byte
file with chunk size 0 is still running after 7 iterations. -/
theorem split_file_termination_witness :
    (∃ L, splitFileFuel ((3 : ℤ).toNat + 1) 0 3 2 = some L) ∧
    splitFileFuel 7 0 4 0 = none :=
  ⟨(split_file_termination_dichotomy 3 2).1 (by decide) (by decide),
   (split_file_termination_dichotomy 4 0).2 (by decide) (by decide) 7⟩

/-- Claim C3, counterexample.  At `file_size = 0` and `chunk_size = -3 ≤ 0`
the `_split_file` loop exits immediately and returns the empty chunk list:
it does not fail at all, with `InvalidArgument` or anything else (the
function body, lines 86-93 of `coordinator.py`, contains no validation and
no raise). -/
theorem split_file_nonpositive_chunk_returns_normally :
    splitFileFuel 1 0 0 (-3) = some [] := by decide

/-- Claim C3 (amended).  `_split_file` performs no validation of
`chunk_size` and can never raise `InvalidArgument`; for `chunk_size ≤ 0` it
returns the empty chunk list whenever `file_size ≤ 0`, and its loop never
terminates whenever `file_size > 0`. -/
theorem split_file_no_validation (fileSize chunkSize : ℤ)
    (hc : chunkSize ≤ 0) :
    (fileSize ≤ 0 → ∀ fuel, 1 ≤ fuel →
      splitFileFuel fuel 0 fileSize chunkSize = some []) ∧
    (0 < fileSize → ∀ fuel, splitFileFuel fuel 0 fileSize chunkSize = none) := by
  constructor
  · intro h0 fuel hfuel
    cases fuel with
    | zero => omega
    | succ fuel => rw [splitFileFuel, if_neg (by omega)]
  · intro h0 fuel
    exact splitFileFuel_diverges fuel 0 fileSize chunkSize hc h0

/-- Claim C3 (amended), witness: `file_size = -2`, `chunk_size = -1`. -/
theorem split_file_no_validation_witness :
    splitFileFuel 3 0 (-2) (-1) = some [] :=
  (split_file_no_validation (-2) (-1) (by decide)).1 (by decide) 3 (by decide)

/-! ## Properties of `aggregate_results` -/

/-- The aggregation loop accumulates the three totals of lines 109-112,
whatever the accumulator. -/
lemma aggLoop_foldl :
    ∀ (results : List ChunkResult) (acc : ℤ × ℚ × ℤ),
      results.foldl aggStep acc =
        (acc.1 + (results.map (fun r => r.requests_per_second)).sum,
         acc.2.1 + (results.map
           (fun r => r.avg_response_time * (r.requests_per_second : ℚ))).sum,
         acc.2.2 + (results.map (fun r => r.malformed_lines)).sum) := by
  intro results
  induction results with
  | nil => intro acc; simp
  | cons r rs ih =>
    intro acc
    rw [List.foldl_cons, ih]
    simp only [aggStep, List.map_cons, List.sum_cons, Prod.mk.injEq]
    refine ⟨by ring, by ring, by ring⟩

/-- Claim C6.  The aggregate's `requests_per_second` and `malformed_lines`
are the sums of the per-chunk fields, `avg_response_time` is the
request-count-weighted mean `sum(avg * requests) / sum(requests)` when the
request total is positive and `0` otherwise, and the empty sequence
aggregates to the all-zero record. -/
theorem aggregate_results_sums_and_weighted_avg :
    ∀ results : List ChunkResult,
      (aggregate_results results).requests_per_second =
        (results.map (fun r => r.requests_per_second)).sum ∧
      (aggregate_results results).malformed_lines =
        (results.map (fun r => r.malformed_lines)).sum ∧
      (aggregate_results results).avg_response_time =
        (if 0 < (results.map (fun r => r.requests_per_second)).sum then
          (results.map
            (fun r => r.avg_response_time * (r.requests_per_second : ℚ))).sum /
            (((results.map (fun r => r.requests_per_second)).sum : ℤ) : ℚ)
         else 0) ∧
      aggregate_results [] =
        { avg_response_time := 0, requests_per_second := 0, error_rate := 0,
          malformed_lines := 0 } := by
  intro results
  refine ⟨?_, ?_, ?_, by decide⟩ <;>
  · simp only [aggregate_results]
    rw [aggLoop_foldl]
    simp

/-- Claim C7.  Dropping every chunk whose `requests_per_second` is `0` from
the input leaves both the aggregate request total and the weighted average
unchanged: such a chunk contributes `0` to the numerator
(`avg * 0`), `0` to the denominator, and `0` to the request sum. -/
theorem aggregate_results_drop_zero_request_chunks :
    ∀ results : List ChunkResult,
      (aggregate_results (results.filter
          (fun r => r.requests_per_second != 0))).requests_per_second =
        (aggregate_results results).requests_per_second ∧
      (aggregate_results (results.filter
          (fun r => r.requests_per_second != 0))).avg_response_time =
        (aggregate_results results).avg_response_time := by
  have key : ∀ results : List ChunkResult,
      ((results.filter (fun r => r.requests_per_second != 0)).map
        (fun r => r.requests_per_second)).sum =
        (results.map (fun r => r.requests_per_second)).sum ∧
      ((results.filter (fun r => r.requests_per_second != 0)).map
        (fun r => r.avg_response_time * (r.requests_per_second : ℚ))).sum =
        (results.map
          (fun r => r.avg_response_time * (r.requests_per_second : ℚ))).sum := by
    intro results
    induction results with
    | nil => exact ⟨rfl, rfl⟩
    | cons r rs ih =>
      by_cases h : r.requests_per_second = 0
      · simp [List.filter_cons, h, ih.1, ih.2]
      · simp [List.filter_cons, h, ih.1, ih.2]
  intro results
  obtain ⟨k1, k2⟩ := key results
  constructor
  · simp only [aggregate_results]
    rw [aggLoop_foldl, aggLoop_foldl]
    simp [k1]
  · simp only [aggregate_results]
    rw [aggLoop_foldl, aggLoop_foldl]
    simp [k1, k2]

/-! ## Properties of the dispatch loop and the registry -/

/-- Default used only to state `getD` equalities at in-range indices. -/
def chunkResultDefault : ChunkResult :=
  { error_rate := 0, avg_response_time := 0, requests_per_second := 0,
    malformed_lines := 0 }

/-- A concrete worker response used to instantiate witnesses. -/
def respConst : String → ℤ × ℤ → ChunkResult := fun _ _ => chunkResultDefault

/-- With a nonempty registry, line 72 picks the key at `i mod len`. -/
lemma pyRoundRobin_ok (workers : List String) (i : Nat)
    (hw : workers.length ≠ 0) :
    pyRoundRobin workers i =
      Except.ok (workers.getD (i % workers.length) "") := by
  unfold pyRoundRobin
  rw [if_neg hw]

/-- One successful iteration of the dispatch loop. -/
lemma dispatch_cons_ok (workers : List String)
    (respond : String → ℤ × ℤ → ChunkResult) (i : Nat) (c : ℤ × ℤ)
    (rest : List (ℤ × ℤ)) (wid : String) (rs : List ChunkResult)
    (h1 : pyRoundRobin workers i = Except.ok wid)
    (h2 : dispatch workers respond (i + 1) rest = Except.ok rs) :
    dispatch workers respond i (c :: rest) =
      Except.ok (respond wid c :: rs) := by
  rw [dispatch, h1, h2]

/-- Against a nonempty registry the dispatch loop never fails and returns,
for the chunk at loop position `j` (counting from start index `i0`), the
response of the worker at registry position `(i0 + j) mod len`. -/
lemma dispatch_ok_spec (workers : List String)
    (respond : String → ℤ × ℤ → ChunkResult) (hw : workers.length ≠ 0) :
    ∀ (chunks : List (ℤ × ℤ)) (i0 : Nat),
      ∃ rs, dispatch workers respond i0 chunks = Except.ok rs ∧
        rs.length = chunks.length ∧
        ∀ j, j < chunks.length →
          rs.getD j chunkResultDefault =
            respond (workers.getD ((i0 + j) % workers.length) "")
              (chunks.getD j (0, 0)) := by
  intro chunks
  induction chunks with
  | nil =>
    intro i0
    exact ⟨[], rfl, rfl, by intro j hj; simp at hj⟩
  | cons c rest ih =>
    intro i0
    obtain ⟨rs0, h0, hlen, hj⟩ := ih (i0 + 1)
    refine ⟨respond (workers.getD (i0 % workers.length) "") c :: rs0, ?_, ?_, ?_⟩
    · exact dispatch_cons_ok workers respond i0 c rest _ rs0
        (pyRoundRobin_ok workers i0 hw) h0
    · simp [hlen]
    · intro j hjlt
      cases j with
      | zero => simp
      | succ j =>
        have harg : i0 + 1 + j = i0 + (j + 1) := by omega
        rw [List.getD_cons_succ, List.getD_cons_succ,
          hj j (by simpa using hjlt), harg]

/-- Claim C8.  For a nonempty registry, dispatch succeeds, returns one result
per chunk in chunk order, and the chunk at position `i` is served by the
worker at position `i mod N` of the registry key snapshot — independently of
the chunk contents and of the responses. -/
theorem dispatch_round_robin_assignment (workers : List String)
    (respond : String → ℤ × ℤ → ChunkResult) (chunks : List (ℤ × ℤ))
    (hw : workers ≠ []) :
    ∃ rs, dispatch workers respond 0 chunks = Except.ok rs ∧
      rs.length = chunks.length ∧
      ∀ i, i < chunks.length →
        rs.getD i chunkResultDefault =
          respond (workers.getD (i % workers.length) "")
            (chunks.getD i (0, 0)) := by
  have hw0 : workers.length ≠ 0 := fun h => hw (List.length_eq_zero.mp h)
  obtain ⟨rs, h1, h2, h3⟩ := dispatch_ok_spec workers respond hw0 chunks 0
  exact ⟨rs, h1, h2, fun i hi => by simpa using h3 i hi⟩

/-- Claim C8, witness: two workers, three chunks. -/
theorem dispatch_round_robin_assignment_witness :
    ∃ rs, dispatch ["u", "v"] respConst 0 [(0, 2), (2, 2), (4, 2)] =
        Except.ok rs ∧
      rs.length = ([(0, 2), (2, 2), (4, 2)] : List (ℤ × ℤ)).length ∧
      ∀ i, i < ([(0, 2), (2, 2), (4, 2)] : List (ℤ × ℤ)).length →
        rs.getD i chunkResultDefault =
          respConst
            ((["u", "v"] : List String).getD
              (i % (["u", "v"] : List String).length) "")
            (([(0, 2), (2, 2), (4, 2)] : List (ℤ × ℤ)).getD i (0, 0)) :=
  dispatch_round_robin_assignment ["u", "v"] respConst
    [(0, 2), (2, 2), (4, 2)] (by decide)

/-- Claim C4, counterexample.  A dispatch of one chunk against the empty
registry fails with `ZeroDivisionError` — the `PyError` raised by Python for
`i % 0` on line 72 — which is a different `PyError` constructor from the
`noWorkersAvailable` the claim names; no code path produces
`PyError.noWorkersAvailable`. -/
theorem dispatch_empty_registry_zero_division :
    dispatch [] respConst 0 [((0 : ℤ), (4 : ℤ))] =
      Except.error PyError.zeroDivisionError := by
  rfl

/-- Claim C4 (amended).  A dispatch attempted with at least one chunk while
the registry is empty fails with `ZeroDivisionError` (Python evaluates
`i % len(self.workers)` with `len = 0`); there is no `NoWorkersAvailable`
check in the code, and a dispatch of zero chunks against the empty registry
succeeds vacuously with the empty result list. -/
theorem dispatch_empty_registry_behavior (chunks : List (ℤ × ℤ))
    (respond : String → ℤ × ℤ → ChunkResult) :
    (chunks ≠ [] →
      dispatch [] respond 0 chunks = Except.error PyError.zeroDivisionError) ∧
    dispatch [] respond 0 [] = Except.ok [] := by
  constructor
  · intro h
    cases chunks with
    | nil => exact absurd rfl h
    | cons c rest =>
      rw [dispatch]
      rfl
  · rfl

/-- Claim C4 (amended), witness: one chunk, empty registry. -/
theorem dispatch_empty_registry_behavior_witness :
    dispatch [] respConst 0 [((0 : ℤ), (1 : ℤ))] =
      Except.error PyError.zeroDivisionError :=
  (dispatch_empty_registry_behavior [((0 : ℤ), (1 : ℤ))] respConst).1
    (by decide)

/-- `getD` commutes with `map` at in-range indices, for any defaults. -/
lemma getD_map_of_lt {α β : Type} (f : α → β) :
    ∀ (l : List α) (i : Nat) (d1 : α) (d2 : β), i < l.length →
      (l.map f).getD i d2 = f (l.getD i d1) := by
  intro l
  induction l with
  | nil => intro i d1 d2 hi; simp at hi
  | cons a l ih =>
    intro i d1 d2 hi
    cases i with
    | zero => simp
    | succ i =>
      simp only [List.map_cons, List.getD_cons_succ]
      exact ih i d1 d2 (by simpa using hi)

/-- Default used only to state `getD` equalities at in-range indices. -/
def entryDefault : String × WorkerEntry :=
  ("", { worker_url := "", status := "" })

/-- Claim C9.  A heartbeat for a registered id keeps the registry length,
every key and every URL, sets the status of the entry with that key to
`"active"`, and touches no other entry; a heartbeat for an unknown id
returns the registry unchanged, so in particular it creates no entry. -/
theorem heartbeat_known_refreshes_unknown_noop
    (workers : List (String × WorkerEntry)) (wid : String) :
    ((∃ p ∈ workers, p.1 = wid) →
      (handle_worker_health_check workers wid).length = workers.length ∧
      ∀ i, i < workers.length →
        ((handle_worker_health_check workers wid).getD i entryDefault).1 =
          (workers.getD i entryDefault).1 ∧
        ((handle_worker_health_check workers wid).getD i
            entryDefault).2.worker_url =
          (workers.getD i entryDefault).2.worker_url ∧
        ((handle_worker_health_check workers wid).getD i
            entryDefault).2.status =
          (if (workers.getD i entryDefault).1 = wid then "active"
           else (workers.getD i entryDefault).2.status)) ∧
    ((∀ p ∈ workers, p.1 ≠ wid) →
      handle_worker_health_check workers wid = workers) := by
  constructor
  · intro hex
    have hany : workers.any (fun p => p.1 == wid) = true := by
      rw [List.any_eq_true]
      obtain ⟨p, hp, he⟩ := hex
      exact ⟨p, hp, by simpa using he⟩
    unfold handle_worker_health_check
    rw [if_pos hany]
    refine ⟨List.length_map _ _, ?_⟩
    intro i hi
    rw [getD_map_of_lt _ workers i entryDefault entryDefault hi]
    by_cases hpe : (workers.getD i entryDefault).1 = wid
    · have hb : ((workers.getD i entryDefault).1 == wid) = true := by
        simpa using hpe
      rw [if_pos hb]
      refine ⟨rfl, rfl, ?_⟩
      rw [if_pos hpe]
    · have hb : ¬(((workers.getD i entryDefault).1 == wid) = true) := by
        simpa using hpe
      rw [if_neg hb]
      refine ⟨rfl, rfl, ?_⟩
      rw [if_neg hpe]
  · intro hall
    have hany : workers.any (fun p => p.1 == wid) = false := by
      rw [List.any_eq_false]
      intro p hp
      simpa using hall p hp
    unfold handle_worker_health_check
    rw [if_neg (by simp [hany])]

/-- Concrete registry used to instantiate the heartbeat witness. -/
def reg0 : List (String × WorkerEntry) :=
  [("w1", { worker_url := "u1", status := "idle" }),
   ("w2", { worker_url := "u2", status := "active" })]

/-- Claim C9, witness: a known id gets its status refreshed, an unknown id
leaves the registry untouched. -/
theorem heartbeat_witness :
    ((handle_worker_health_check reg0 "w1").getD 0 entryDefault).2.status =
      "active" ∧
    handle_worker_health_check reg0 "zz" = reg0 := by
  constructor
  · have h := (heartbeat_known_refreshes_unknown_noop reg0 "w1").1
      ⟨("w1", { worker_url := "u1", status := "idle" }), by decide, rfl⟩
    have h2 := (h.2 0 (by decide)).2.2
    rw [h2]
    decide
  · exact (heartbeat_known_refreshes_unknown_noop reg0 "zz").2 (by decide)

/-- Claim C1.  `coordinator.py` never imports `os`, so every
`/process_chunk` request raises `NameError` at line 67 — before the file is
split, before any chunk is dispatched, and before any aggregation — and in
particular no request can return a successful `AggregateResult`: the
handler's value is `some (Except.error (PyError.nameError "os"))` for every
request body, registry, file system and worker behaviour, which is not
`some (Except.ok r)` for any `r`. -/
theorem handle_process_chunk_always_nameError (getsize : String → ℤ)
    (reg : List (String × WorkerEntry))
    (respond : String → ℤ × ℤ → ChunkResult)
    (body : ProcessChunkRequest) (fuel : Nat) :
    handle_process_chunk getsize reg respond body fuel =
      some (Except.error (PyError.nameError "os")) := by
  unfold handle_process_chunk
  rw [if_neg (by decide)]
